import Mathlib

/-!
Shallow embedding of the UM_leccap lecture-capture converter
(`src/main.py` and `src/markdown.py`).

Modelling conventions:
* Python strings are `List Char` (ASCII fragment; the inputs handled by the
  tool are ASCII).
* Python `int` is `ℤ`; a raised exception (`ValueError` / `IndexError`) is
  `Option.none`.
* The float expression `int(lo + (hi - lo) / (n + 1) * j)` in the thumbnail
  interpolation is modelled by exact rational arithmetic followed by
  truncation toward zero, i.e. `Int.tdiv (lo*(n+1) + (hi-lo)*j) (n+1)`;
  on every concrete input appearing below the IEEE-double computation and
  the exact computation agree.
-/

/-- Python whitespace (as in `str.strip()` and the regex class `\s`),
ASCII range. -/
def isPyWs (c : Char) : Bool :=
  c == ' ' || c == '\t' || c == '\n' || c == '\r' || c == '\x0b' || c == '\x0c'

/-- Python `str.strip()`: drop whitespace from both ends. -/
def pyStrip (l : List Char) : List Char :=
  ((l.dropWhile isPyWs).reverse.dropWhile isPyWs).reverse

/-- Python `s.split(":")` (with explicit separator: `"".split(":") == [""]`). -/
def splitOnColon : List Char → List (List Char)
  | [] => [[]]
  | c :: rest =>
    if c = ':' then [] :: splitOnColon rest
    else
      match splitOnColon rest with
      | [] => [[c]]
      | p :: ps => (c :: p) :: ps

/-- Numeric value of a decimal digit character. -/
def dval (c : Char) : ℕ := c.toNat - 48

/-- Tail of Python `int()` digit parsing: after a first digit has been read,
further digits may be separated by single underscores (`int("1_0") == 10`,
`int("1__0")` and `int("1_")` fail). -/
def digitsCoreP (a : ℕ) : List Char → Option ℕ
  | [] => some a
  | c :: rest =>
    if c.isDigit then digitsCoreP (a * 10 + dval c) rest
    else if c = '_' then
      match rest with
      | c2 :: rest2 =>
        if c2.isDigit then digitsCoreP (a * 10 + dval c2) rest2 else none
      | [] => none
    else none

/-- Python `int()` on an (already sign-stripped) body: at least one digit,
underscores only between digits. -/
def pyIntCore (l : List Char) : Option ℕ :=
  match l with
  | c :: rest => if c.isDigit then digitsCoreP (dval c) rest else none
  | [] => none

/-- Python `int(s)` for a decimal string: strips whitespace, allows one
leading sign, then digits; anything else raises (`none`). -/
def pyInt (s : List Char) : Option ℤ :=
  match pyStrip s with
  | [] => none
  | c :: rest =>
    if c = '+' then (pyIntCore rest).map (fun n => (n : ℤ))
    else if c = '-' then (pyIntCore rest).map (fun n => -(n : ℤ))
    else (pyIntCore (c :: rest)).map (fun n => (n : ℤ))

/-- `[f x for x in l]` where `f` may raise: the whole comprehension raises
as soon as one element does. -/
def mapOpt (f : α → Option β) : List α → Option (List β)
  | [] => some []
  | a :: l =>
    match f a, mapOpt f l with
    | some b, some bs => some (b :: bs)
    | _, _ => none

/-- `ts_from_clock` (src/main.py:73-87 = src/markdown.py:13-27): split the
stripped clock text on `":"`, convert every part with `int`, accept exactly
3 (`hh:mm:ss`) or 2 (`mm:ss`) parts; `none` models the raised `ValueError`
(the spec's `MalformedTimestamp`). -/
def ts_from_clock (clock : List Char) : Option ℤ :=
  match mapOpt pyInt (splitOnColon (pyStrip clock)) with
  | none => none
  | some parts =>
    match parts with
    | [h, m, s] => some (h * 3600 + m * 60 + s)
    | [m, s] => some (m * 60 + s)
    | _ => none

/-- Decimal digits of `n`, most significant first, with structural fuel
(`fuel > n` suffices). -/
def natDigitsFuel : ℕ → ℕ → List Char
  | 0, _ => []
  | f + 1, n =>
    if n < 10 then [Nat.digitChar n]
    else natDigitsFuel f (n / 10) ++ [Nat.digitChar (n % 10)]

/-- Decimal rendering of a natural number (Python `str(n)` for `n ≥ 0`). -/
def natDigits (n : ℕ) : List Char := natDigitsFuel (n + 1) n

/-- Decimal rendering of an integer (Python `str(n)`). -/
def intRepr (n : ℤ) : List Char :=
  if n < 0 then '-' :: natDigits n.natAbs else natDigits n.toNat

/-- Python `f"{n:02}"`: left-pad the decimal rendering with `'0'` to width 2
(for width 2 the sign-aware zero padding coincides with plain padding,
since a signed rendering already has length ≥ 2). -/
def pad2 (l : List Char) : List Char := List.replicate (2 - l.length) '0' ++ l

/-- `clock_to_str` (src/main.py:112-115): `divmod` twice and render
`hh:mm:ss` with two-digit zero-padded fields.  Python `divmod` with a
positive modulus is `Int.ediv` / `Int.emod`. -/
def clock_to_str (ts : ℤ) : List Char :=
  pad2 (intRepr (Int.ediv ts 3600)) ++
    ':' :: (pad2 (intRepr (Int.ediv (Int.emod ts 3600) 60)) ++
      ':' :: pad2 (intRepr (Int.emod (Int.emod ts 3600) 60)))

/-! ### Basic lemmas about the decimal round trip -/

theorem dropWhile_eq_self_of_all {p : Char → Bool} {l : List Char}
    (h : ∀ c ∈ l, p c = false) : l.dropWhile p = l := by
  cases l with
  | nil => rfl
  | cons c rest =>
    simp [List.dropWhile, h c (by simp)]

theorem pyStrip_eq_self {l : List Char} (h : ∀ c ∈ l, isPyWs c = false) :
    pyStrip l = l := by
  unfold pyStrip
  rw [dropWhile_eq_self_of_all h, dropWhile_eq_self_of_all, List.reverse_reverse]
  intro c hc
  exact h c (by simpa using hc)

theorem splitOnColon_no_colon {l : List Char} (h : ':' ∉ l) :
    splitOnColon l = [l] := by
  induction l with
  | nil => rfl
  | cons c rest ih =>
    have hc : c ≠ ':' := by intro hh; exact h (by simp [hh])
    have hr : ':' ∉ rest := by intro hh; exact h (by simp [hh])
    simp only [splitOnColon, if_neg hc, ih hr]

theorem splitOnColon_append {a b : List Char} (h : ':' ∉ a) :
    splitOnColon (a ++ ':' :: b) = a :: splitOnColon b := by
  induction a with
  | nil => simp [splitOnColon]
  | cons c rest ih =>
    have hc : c ≠ ':' := by intro hh; exact h (by simp [hh])
    have hr : ':' ∉ rest := by intro hh; exact h (by simp [hh])
    simp only [List.cons_append, splitOnColon, if_neg hc, List.append_eq, ih hr]

theorem digitChar_isDigit {k : ℕ} (h : k < 10) : (Nat.digitChar k).isDigit = true := by
  interval_cases k <;> decide

theorem dval_digitChar {k : ℕ} (h : k < 10) : dval (Nat.digitChar k) = k := by
  interval_cases k <;> decide

theorem natDigitsFuel_all_digit :
    ∀ f n, n < f → ∀ c ∈ natDigitsFuel f n, c.isDigit = true := by
  intro f
  induction f with
  | zero => intro n hn; omega
  | succ f ih =>
    intro n hn c hc
    by_cases h10 : n < 10
    · simp only [natDigitsFuel, if_pos h10, List.mem_singleton] at hc
      subst hc; exact digitChar_isDigit h10
    · simp only [natDigitsFuel, if_neg h10, List.mem_append, List.mem_singleton] at hc
      rcases hc with hc | hc
      · have : n / 10 < f := by
          have := Nat.div_lt_self (by omega : 0 < n) (by omega : 1 < 10)
          omega
        exact ih (n / 10) this c hc
      · subst hc; exact digitChar_isDigit (Nat.mod_lt n (by omega))

/-- Folding the digit-accumulation step over the rendered digits recovers
the number. -/
theorem foldl_natDigitsFuel :
    ∀ f n, n < f →
      (natDigitsFuel f n).foldl (fun a c => a * 10 + dval c) 0 = n := by
  intro f
  induction f with
  | zero => intro n hn; omega
  | succ f ih =>
    intro n hn
    by_cases h10 : n < 10
    · simp [natDigitsFuel, if_pos h10, dval_digitChar h10]
    · have hdiv : n / 10 < f := by
        have := Nat.div_lt_self (by omega : 0 < n) (by omega : 1 < 10)
        omega
      simp only [natDigitsFuel, if_neg h10, List.foldl_append, ih (n / 10) hdiv,
        List.foldl_cons, List.foldl_nil, dval_digitChar (Nat.mod_lt n (by omega))]
      omega

theorem natDigits_all_digit (n : ℕ) : ∀ c ∈ natDigits n, c.isDigit = true :=
  natDigitsFuel_all_digit (n + 1) n (by omega)

theorem foldl_natDigits (n : ℕ) :
    (natDigits n).foldl (fun a c => a * 10 + dval c) 0 = n :=
  foldl_natDigitsFuel (n + 1) n (by omega)

theorem natDigits_ne_nil (n : ℕ) : natDigits n ≠ [] := by
  unfold natDigits natDigitsFuel
  by_cases h10 : n < 10 <;> simp [h10]

theorem digitsCoreP_all_digit {l : List Char} (h : ∀ c ∈ l, c.isDigit = true) :
    ∀ a, digitsCoreP a l = some (l.foldl (fun x c => x * 10 + dval c) a) := by
  induction l with
  | nil => intro a; rfl
  | cons c rest ih =>
    intro a
    have hc : c.isDigit = true := h c (by simp)
    have hstep : digitsCoreP a (c :: rest) = digitsCoreP (a * 10 + dval c) rest := by
      conv_lhs => rw [digitsCoreP.eq_def]
      simp only [hc, if_true]
    rw [hstep]
    simp only [List.foldl_cons]
    exact ih (fun d hd => h d (by simp [hd])) _

theorem isDigit_not_ws {c : Char} (h : c.isDigit = true) : isPyWs c = false := by
  by_contra hw
  have hw' : isPyWs c = true := by
    cases hval : isPyWs c
    · exact absurd hval hw
    · rfl
  simp only [isPyWs, Bool.or_eq_true, beq_iff_eq] at hw'
  rcases hw' with ((((rfl | rfl) | rfl) | rfl) | rfl) | rfl <;> exact absurd h (by decide)

theorem isDigit_char_facts {c : Char} (h : c.isDigit = true) :
    c ≠ '+' ∧ c ≠ '-' ∧ c ≠ ':' := by
  refine ⟨?_, ?_, ?_⟩ <;> rintro rfl <;> simp [Char.isDigit] at h

/-- `pyInt` round-trips a zero-padded decimal rendering of a natural. -/
theorem pyInt_pad2_natDigits (n : ℕ) : pyInt (pad2 (natDigits n)) = some (n : ℤ) := by
  have hdig : ∀ c ∈ pad2 (natDigits n), c.isDigit = true := by
    intro c hc
    simp only [pad2, List.mem_append, List.mem_replicate] at hc
    rcases hc with ⟨_, rfl⟩ | hc
    · decide
    · exact natDigits_all_digit n c hc
  have hstrip : pyStrip (pad2 (natDigits n)) = pad2 (natDigits n) :=
    pyStrip_eq_self (fun c hc => isDigit_not_ws (hdig c hc))
  have hne : pad2 (natDigits n) ≠ [] := by
    unfold pad2
    intro h
    exact natDigits_ne_nil n (by simpa using (List.append_eq_nil.mp h).2)
  obtain ⟨c, rest, hcr⟩ : ∃ c rest, pad2 (natDigits n) = c :: rest := by
    cases h : pad2 (natDigits n) with
    | nil => exact absurd h hne
    | cons c rest => exact ⟨c, rest, rfl⟩
  have hc : c.isDigit = true := hdig c (by rw [hcr]; simp)
  obtain ⟨hplus, hminus, _⟩ := isDigit_char_facts hc
  have hzero : ∀ k, (List.replicate k '0').foldl (fun x d => x * 10 + dval d) 0 = 0 := by
    intro k
    induction k with
    | zero => rfl
    | succ k ih =>
      simp only [List.replicate_succ, List.foldl_cons]
      have h0 : 0 * 10 + dval '0' = 0 := by decide
      rw [h0, ih]
  have hfold :
      (pad2 (natDigits n)).foldl (fun x d => x * 10 + dval d) 0 = n := by
    unfold pad2
    rw [List.foldl_append, hzero, foldl_natDigits]
  have hcore : pyIntCore (c :: rest) =
      some ((c :: rest).foldl (fun x d => x * 10 + dval d) 0) := by
    show (if c.isDigit then digitsCoreP (dval c) rest else none) = _
    rw [if_pos hc,
      digitsCoreP_all_digit (fun d hd => hdig d (by rw [hcr]; simp [hd])) (dval c)]
    simp only [List.foldl_cons]
    have h0 : 0 * 10 + dval c = dval c := by omega
    rw [h0]
  have hval : (c :: rest).foldl (fun x d => x * 10 + dval d) 0 = n := by
    rw [← hcr]; exact hfold
  simp only [pyInt]
  rw [hstrip, hcr]
  simp only [if_neg hplus, if_neg hminus, hcore, hval]
  rfl

theorem pad2_natDigits_all_digit (k : ℕ) : ∀ c ∈ pad2 (natDigits k), c.isDigit = true := by
  intro c hc
  simp only [pad2, List.mem_append, List.mem_replicate] at hc
  rcases hc with ⟨_, rfl⟩ | hc
  · decide
  · exact natDigits_all_digit k c hc

theorem intRepr_natCast (k : ℕ) : intRepr (k : ℤ) = natDigits k := by
  unfold intRepr
  rw [if_neg (by omega : ¬((k : ℤ) < 0)), Int.toNat_natCast]

theorem colon_not_mem_pad2 (k : ℕ) : ':' ∉ pad2 (natDigits k) := by
  intro h
  exact absurd rfl (isDigit_char_facts (pad2_natDigits_all_digit k ':' h)).2.2

/-- Claim C7: `format_clock` (`clock_to_str`) renders `3723` as the
zero-padded `"01:02:03"`, and `parse_clock` (`ts_from_clock`) is a left
inverse of it on every non-negative seconds value. -/
theorem C7_format_parse_roundtrip :
    clock_to_str 3723 = ("01:02:03").toList ∧
    ∀ s : ℕ, ts_from_clock (clock_to_str (s : ℤ)) = some (s : ℤ) := by
  constructor
  · decide
  · intro s
    have hdiv1 : Int.ediv (s : ℤ) 3600 = ((s / 3600 : ℕ) : ℤ) := rfl
    have hmod1 : Int.emod (s : ℤ) 3600 = ((s % 3600 : ℕ) : ℤ) := rfl
    have hdiv2 : Int.ediv ((s % 3600 : ℕ) : ℤ) 60 = ((s % 3600 / 60 : ℕ) : ℤ) := rfl
    have hmod2 : Int.emod ((s % 3600 : ℕ) : ℤ) 60 = ((s % 3600 % 60 : ℕ) : ℤ) := rfl
    unfold clock_to_str
    rw [hdiv1, hmod1, hdiv2, hmod2, intRepr_natCast, intRepr_natCast, intRepr_natCast]
    have hall : ∀ c ∈ pad2 (natDigits (s / 3600)) ++
        ':' :: (pad2 (natDigits (s % 3600 / 60)) ++
          ':' :: pad2 (natDigits (s % 3600 % 60))), isPyWs c = false := by
      intro c hc
      simp only [List.mem_append, List.mem_cons] at hc
      rcases hc with hc | rfl | hc | rfl | hc
      · exact isDigit_not_ws (pad2_natDigits_all_digit _ c hc)
      · decide
      · exact isDigit_not_ws (pad2_natDigits_all_digit _ c hc)
      · decide
      · exact isDigit_not_ws (pad2_natDigits_all_digit _ c hc)
    unfold ts_from_clock
    rw [pyStrip_eq_self hall, splitOnColon_append (colon_not_mem_pad2 _),
      splitOnColon_append (colon_not_mem_pad2 _),
      splitOnColon_no_colon (colon_not_mem_pad2 _)]
    simp only [mapOpt, pyInt_pad2_natDigits]
    congr 1
    push_cast
    omega

/-- Witness for C7: the round-trip theorem applied at `s = 3723`. -/
theorem C7_format_parse_roundtrip_witness :
    ts_from_clock (clock_to_str ((3723 : ℕ) : ℤ)) = some ((3723 : ℕ) : ℤ) :=
  C7_format_parse_roundtrip.2 3723

theorem mapOpt_eq_none_iff {f : α → Option β} :
    ∀ {l : List α}, mapOpt f l = none ↔ ∃ p ∈ l, f p = none := by
  intro l
  induction l with
  | nil => simp [mapOpt]
  | cons a l ih =>
    simp only [mapOpt]
    cases hfa : f a <;> cases hml : mapOpt f l <;> simp_all

theorem mapOpt_length {f : α → Option β} :
    ∀ {l : List α} {l' : List β}, mapOpt f l = some l' → l'.length = l.length := by
  intro l
  induction l with
  | nil =>
    intro l' h
    simp only [mapOpt, Option.some_inj] at h
    subst h; rfl
  | cons a l ih =>
    intro l' h
    simp only [mapOpt] at h
    cases hfa : f a with
    | none => rw [hfa] at h; simp at h
    | some b =>
      cases hml : mapOpt f l with
      | none => rw [hfa, hml] at h; simp at h
      | some bs =>
        rw [hfa, hml] at h
        simp only [Option.some_inj] at h
        subst h
        simp [ih hml]

/-- Claim C8: `parse_clock` fails exactly when the colon-separated component
count is neither 2 nor 3 or some component is not an integer; otherwise it
returns the total seconds (`parse_clock("1:02:03") = 3723`,
`parse_clock("5:09") = 309`, `parse_clock("abc")` fails). -/
theorem C8_parse_clock_error_condition (s : List Char) :
    ts_from_clock (("1:02:03").toList) = some 3723 ∧
    ts_from_clock (("5:09").toList) = some 309 ∧
    ts_from_clock (("abc").toList) = none ∧
    (ts_from_clock s = none ↔
      (¬((splitOnColon (pyStrip s)).length = 2 ∨ (splitOnColon (pyStrip s)).length = 3) ∨
        ∃ p ∈ splitOnColon (pyStrip s), pyInt p = none)) := by
  refine ⟨by decide, by decide, by decide, ?_⟩
  cases hm : mapOpt pyInt (splitOnColon (pyStrip s)) with
  | none =>
    constructor
    · intro _
      exact Or.inr (mapOpt_eq_none_iff.mp hm)
    · intro _
      simp only [ts_from_clock, hm]
  | some parts =>
    have hlen := mapOpt_length hm
    have hnone : ¬ ∃ p ∈ splitOnColon (pyStrip s), pyInt p = none := by
      intro hex
      rw [mapOpt_eq_none_iff.mpr hex] at hm
      exact absurd hm (by simp)
    constructor
    · intro hts
      simp only [ts_from_clock, hm] at hts
      left
      rcases parts with _ | ⟨a, _ | ⟨b, _ | ⟨c, _ | d⟩⟩⟩ <;> simp_all <;> omega
    · intro h
      rcases h with hlen' | hex
      · simp only [ts_from_clock, hm]
        rcases parts with _ | ⟨a, _ | ⟨b, _ | ⟨c, _ | d⟩⟩⟩ <;> simp_all <;> omega
      · exact absurd hex hnone

/-- Witness for C8: the error-condition equivalence applied at `"abc"`. -/
theorem C8_parse_clock_error_condition_witness :
    ts_from_clock (("abc").toList) = none ↔
      (¬((splitOnColon (pyStrip (("abc").toList))).length = 2 ∨
          (splitOnColon (pyStrip (("abc").toList))).length = 3) ∨
        ∃ p ∈ splitOnColon (pyStrip (("abc").toList)), pyInt p = none) :=
  (C8_parse_clock_error_condition (("abc").toList)).2.2.2

/-! ### Thumbnail label parsing (src/main.py:90-109, src/markdown.py:30-49) -/

/-- ASCII lowercasing (the effect of `re.I` on the ASCII inputs at hand). -/
def toLowerCh (c : Char) : Char :=
  if 'A' ≤ c ∧ c ≤ 'Z' then Char.ofNat (c.toNat + 32) else c

/-- Strip a case-insensitive literal from the front (the anchored literal
part of `re.match` with `re.I`); `none` if the literal is not a prefix. -/
def ciStripLit : List Char → List Char → Option (List Char)
  | [], l => some l
  | _ :: _, [] => none
  | p :: ps, c :: cs => if toLowerCh p = toLowerCh c then ciStripLit ps cs else none

def skipWs (l : List Char) : List Char := l.dropWhile isPyWs

/-- One optional clause `(?:(\d+)\s*UNITs?)?` of the thumbnail-label regex:
greedily read digits, skip whitespace, and require the case-insensitive
unit word with an optional trailing `s`; if anything fails, the group
matches empty and the position is unchanged.  (For this regex the greedy
sub-matches need no backtracking: `\d+` cannot trade digits for the letter
needed by the unit word, `\s*` cannot trade whitespace for it, and the
whole tail of the pattern can always match empty, so the first greedy
attempt is the regex result.) -/
def clause (unit : List Char) (l : List Char) : ℕ × List Char :=
  let ds := l.takeWhile Char.isDigit
  if ds = [] then (0, l)
  else
    match ciStripLit unit (skipWs (l.dropWhile Char.isDigit)) with
    | some r =>
      let v := ds.foldl (fun a c => a * 10 + dval c) 0
      match r with
      | c :: r2 => if toLowerCh c = 's' then (v, r2) else (v, c :: r2)
      | [] => (v, [])
    | none => (0, l)

/-- `ts_from_thumb` (src/main.py:99-109 = src/markdown.py:39-49): anchored
case-insensitive match of
`Thumbnail at\s*(?:(\d+)\s*hours?)?\s*(?:(\d+)\s*minutes?)?\s*(?:(\d+)\s*seconds?)?`;
`none` exactly when the leading literal is absent, otherwise
`3600*h + 60*m + s` with absent groups contributing 0. -/
def ts_from_thumb (label : List Char) : Option ℕ :=
  match ciStripLit (("Thumbnail at").toList) label with
  | none => none
  | some r0 =>
    let h := clause (("hour").toList) (skipWs r0)
    let m := clause (("minute").toList) (skipWs h.2)
    let s := clause (("second").toList) (skipWs m.2)
    some (h.1 * 3600 + m.1 * 60 + s.1)

/-! ### Thumbnail timestamp collection and repair (src/main.py:140-197) -/

/-- Backward invalidation walk (src/main.py:152-157), expressed on the
reversed list: replace trailing entries `≥ ts` with the sentinel `-1`,
stopping at the first smaller entry. -/
def invalidateFromEnd (ts : ℤ) : List ℤ → List ℤ
  | [] => []
  | x :: xs => if ts ≤ x then -1 :: invalidateFromEnd ts xs else x :: xs

/-- Appending one parsed thumbnail timestamp (src/main.py:150-159): if the
current last entry is `≥ ts`, retroactively invalidate the trailing entries
that are `≥ ts`; then append `ts` itself. -/
def appendThumb (thumbs : List ℤ) (ts : ℤ) : List ℤ :=
  match thumbs.getLast? with
  | some lastv =>
    if lastv ≥ ts then (invalidateFromEnd ts thumbs.reverse).reverse ++ [ts]
    else thumbs ++ [ts]
  | none => thumbs ++ [ts]

/-- The collection loop of `extract_thumb` (src/main.py:145-162) on the
stream of per-row parse results; a `none` parse (label without the
thumbnail phrase) is appended as `0` with no order check. -/
def collectThumbs (l : List (Option ℕ)) : List ℤ :=
  l.foldl (fun t o =>
    match o with
    | some ts => appendThumb t (ts : ℤ)
    | none => t ++ [0]) []

/-- Sentinel-run length starting at index `j` (src/main.py:169-174), with
structural fuel (`get?` past the end stops the count, so `t.length - j`
fuel is exact). -/
def runLenGo (t : List ℤ) : ℕ → ℕ → ℕ
  | 0, _ => 0
  | f + 1, j => if t.get? j = some (-1) then runLenGo t f (j + 1) + 1 else 0

def runLen (t : List ℤ) (i : ℕ) : ℕ := runLenGo t (t.length - i) i

/-- `int(thumbs[i-1] + (thumbs[i+num]-thumbs[i-1])/(num+1)*(j-i+1))`
(src/main.py:178-183) with exact arithmetic: truncation toward zero of
`lo + (hi-lo)*jj/(num+1)` is `Int.tdiv (lo*(num+1) + (hi-lo)*jj) (num+1)`. -/
def fillVal (lo hi : ℤ) (num jj : ℕ) : ℤ :=
  Int.tdiv (lo * ((num : ℤ) + 1) + (hi - lo) * (jj : ℤ)) ((num : ℤ) + 1)

/-- `thumbs[i-1]`: Python indexing, where at `i = 0` the index `-1` wraps
to the last element of the list. -/
def lookupPrev (t : List ℤ) (i : ℕ) : Option ℤ :=
  if i = 0 then t.getLast? else t.get? (i - 1)

/-- The inner fill loop `for j in range(i, i + num)` (src/main.py:176-184):
position `i + c` receives the interpolant with 1-indexed offset `c + 1`. -/
def applyFills (lo hi : ℤ) (num i : ℕ) (t : List ℤ) : ℕ → List ℤ
  | 0 => t
  | c + 1 => (applyFills lo hi num i t c).set (i + c) (fillVal lo hi num (c + 1))

/-- One run-filling step at index `i`; `none` models the `IndexError`
raised when the run has no right neighbour (`thumbs[i + num]`). -/
def fillRun (t : List ℤ) (i : ℕ) : Option (List ℤ) :=
  match lookupPrev t i, t.get? (i + runLen t i) with
  | some lo, some hi => some (applyFills lo hi (runLen t i) i t (runLen t i))
  | _, _ => none

/-- The outer fill loop `for i in range(len(thumbs))` (src/main.py:165-184). -/
def fillPassGo : ℕ → ℕ → List ℤ → Option (List ℤ)
  | 0, _, t => some t
  | f + 1, i, t =>
    match (if t.get? i = some (-1) then fillRun t i else some t) with
    | none => none
    | some t2 => fillPassGo f (i + 1) t2

/-- The interpolation phase of `extract_thumb` (src/main.py:164-184). -/
def fillInvalid (t : List ℤ) : Option (List ℤ) := fillPassGo t.length 0 t

/-- Collection plus interpolation: the repairer of `extract_thumb` on the
stream of parse results. -/
def repairThumbs (l : List (Option ℕ)) : Option (List ℤ) :=
  fillInvalid (collectThumbs l)

/-- Deduplication scan (src/main.py:188-195 and src/markdown.py:118-126):
`last_ts` starts at `0` and is updated to each kept timestamp. -/
def dedupGo (gap : ℤ) : ℤ → List ℤ → List ℤ
  | _, [] => []
  | lastTs, ts :: rest =>
    if ts - lastTs ≥ gap then ts :: dedupGo gap ts rest else dedupGo gap lastTs rest

def dedupThumbs (gap : ℤ) (l : List ℤ) : List ℤ := dedupGo gap 0 l

/-- `THUMB_MIN_DIFF` of src/main.py:12 (deduplication disabled there). -/
def THUMB_MIN_DIFF_main : ℤ := -1

/-- `THUMB_MIN_DIFF` of src/markdown.py:10. -/
def THUMB_MIN_DIFF_md : ℤ := 60

/-- `extract_thumb` (src/main.py:140-197) as a function of the
`aria-label` texts of the thumbnail rows. -/
def extract_thumb (labels : List (List Char)) : Option (List ℤ) :=
  (repairThumbs (labels.map ts_from_thumb)).map
    (fun t => if THUMB_MIN_DIFF_main > 0 then dedupThumbs THUMB_MIN_DIFF_main t else t)


/-! ### Properties of the repair and deduplication phases -/

theorem applyFills_length (lo hi : ℤ) (num i : ℕ) (t : List ℤ) :
    ∀ c, (applyFills lo hi num i t c).length = t.length := by
  intro c
  induction c with
  | zero => rfl
  | succ c ih => simp [applyFills, List.length_set, ih]

/-- Inside the filled range, position `i + (jj - 1)` of the fill loop's
result holds the interpolant with 1-indexed offset `jj = j - i + 1`. -/
theorem applyFills_get? (lo hi : ℤ) (num i : ℕ) (t : List ℤ) :
    ∀ c j, i ≤ j → j < i + c → j < t.length →
      (applyFills lo hi num i t c).get? j = some (fillVal lo hi num (j - i + 1)) := by
  intro c
  induction c with
  | zero => intro j _ h2 _; omega
  | succ c ih =>
    intro j h1 h2 h3
    by_cases hj : j = i + c
    · subst hj
      have hlen : i + c < (applyFills lo hi num i t c).length := by
        rw [applyFills_length]; exact h3
      simp only [applyFills]
      rw [List.get?_set_eq_of_lt _ hlen]
      congr 2
      omega
    · simp only [applyFills]
      rw [List.get?_set_ne _ _ (by omega : i + c ≠ j)]
      exact ih j h1 (by omega) h3

theorem dedupGo_mem_ge {gap : ℤ} (hg : 0 ≤ gap) :
    ∀ (l : List ℤ) (lastTs : ℤ), 0 ≤ lastTs → ∀ x ∈ dedupGo gap lastTs l, gap ≤ x := by
  intro l
  induction l with
  | nil => intro lastTs _ x hx; simp [dedupGo] at hx
  | cons ts rest ih =>
    intro lastTs hlast x hx
    by_cases hk : ts - lastTs ≥ gap
    · simp only [dedupGo, if_pos hk] at hx
      rcases List.mem_cons.mp hx with rfl | hx
      · omega
      · exact ih ts (by omega) x hx
    · simp only [dedupGo, if_neg hk] at hx
      exact ih lastTs hlast x hx

/-- Counterexample for C1: with `min_gap = 60` the deduplicator drops the
first record at timestamp 0, producing `[70, 200]`, not `[0, 70, 200]`. -/
theorem C1_dedup_counterexample :
    dedupThumbs 60 [0, 10, 70, 75, 200] = [70, 200] ∧
    dedupThumbs 60 [0, 10, 70, 75, 200] ≠ [0, 70, 200] := by
  constructor <;> decide

/-- Claim C1 (amended): the deduplicator keeps a record only when
`timestamp - last_kept ≥ min_gap`, with `last_kept` initialised to 0 and
updated to each kept timestamp; hence for a non-negative gap every kept
timestamp is `≥ min_gap`, and a first record with timestamp `< min_gap` is
dropped rather than always kept.  With `min_gap = 60`, input
`[0, 10, 70, 75, 200]` produces `[70, 200]`. -/
theorem C1_dedup_amended (gap x : ℤ) (l : List ℤ) (hg : 0 ≤ gap)
    (hx : x ∈ dedupThumbs gap l) :
    gap ≤ x ∧ dedupThumbs 60 [0, 10, 70, 75, 200] = [70, 200] :=
  ⟨dedupGo_mem_ge hg l 0 le_rfl x hx, by decide⟩

/-- Witness for C1: the amended theorem applied to the kept record `70`. -/
theorem C1_dedup_amended_witness :
    (60 : ℤ) ≤ 70 ∧ dedupThumbs 60 [0, 10, 70, 75, 200] = [70, 200] :=
  C1_dedup_amended 60 70 [0, 10, 70, 75, 200] (by decide) (by decide)

/-- Counterexample for C2: on raw timestamps `[5, 3, 10]` the repairer
accepts the new out-of-order value 3 (invalidating the preceding 5 instead)
and finally produces `[6, 3, 10]`, which is not non-decreasing and so not
of the claimed form `[5, x, 10]` with `5 < x < 10`. -/
theorem C2_repairer_counterexample :
    repairThumbs [some 5, some 3, some 10] = some [6, 3, 10] ∧
    ¬ List.Chain' (· ≤ ·) [(6 : ℤ), 3, 10] := by
  exact ⟨by decide, by norm_num [List.chain'_cons]⟩

/-- Claim C2 (amended): when a new raw timestamp is `≤` the last appended
one, the *preceding* records that are `≥` it are retroactively invalidated
(walking backward to the first smaller record) while the new timestamp
itself is accepted as the new last element; consequently, on input
`[5, 3, 10]` the collection phase yields `[-1, 3, 10]`, and the fill phase
— whose left bound for a run at position 0 is the list's last element, by
Python negative indexing — yields `[6, 3, 10]`. -/
theorem C2_repairer_amended :
    (∀ (t : List ℤ) (ts : ℤ), (appendThumb t ts).getLast? = some ts) ∧
    collectThumbs [some 5, some 3, some 10] = [-1, 3, 10] ∧
    repairThumbs [some 5, some 3, some 10] = some [6, 3, 10] := by
  refine ⟨?_, by decide, by decide⟩
  intro t ts
  unfold appendThumb
  cases h : t.getLast? with
  | none => simp [List.getLast?_concat]
  | some lastv =>
    by_cases hge : lastv ≥ ts <;> simp [hge, List.getLast?_concat]

/-- Witness for C2: the amended theorem applied at `t = [5]`, `ts = 3`. -/
theorem C2_repairer_amended_witness :
    (appendThumb [(5 : ℤ)] 3).getLast? = some 3 ∧
    collectThumbs [some 5, some 3, some 10] = [-1, 3, 10] :=
  ⟨C2_repairer_amended.1 [5] 3, C2_repairer_amended.2.1⟩

/-- Claim C3, code evaluated at the failing inputs: on labels parsing to
`[5, 3, 10]` the records surviving repair are `[6, 3, 10]` — sentinel-free
and non-negative but *not* non-decreasing, because the fill step reads the
left bound of a position-0 run through Python's negative indexing (the
code's own comment asserts the first entry cannot be `-1`, yet it can);
and a non-thumbnail label after a positive timestamp is appended as `0`
with no order check, surviving as the non-monotonic `[100, 0]`. -/
theorem C3_postcondition_failure :
    extract_thumb [("Thumbnail at 5 seconds").toList, ("Thumbnail at 3 seconds").toList,
        ("Thumbnail at 10 seconds").toList] = some [6, 3, 10] ∧
    ¬ List.Chain' (· ≤ ·) [(6 : ℤ), 3, 10] ∧
    extract_thumb [("Thumbnail at 100 seconds").toList, ("hello").toList] =
        some [100, 0] ∧
    ¬ List.Chain' (· ≤ ·) [(100 : ℤ), 0] := by
  exact ⟨by decide, by norm_num [List.chain'_cons], by decide,
    by norm_num [List.chain'_cons]⟩

/-- Counterexample for C6: on `[0, -1, -1, 2]` the fill step produces
`[0, 0, 1, 2]` (truncation toward zero of `2/3` and `4/3`), not the
`[0, 1, 1, 2]` demanded by `lo + round((hi - lo) * j / (k + 1))`
(`round(2/3) = 1` under round-to-nearest). -/
theorem C6_interpolation_counterexample :
    fillInvalid [0, -1, -1, 2] = some [0, 0, 1, 2] ∧
    fillInvalid [0, -1, -1, 2] ≠ some [0, 1, 1, 2] := by
  constructor <;> decide

/-- Claim C6 (amended): the fill loop gives the `j`-th (1-indexed) member
of a sentinel run the *truncation toward zero* of `lo + (hi-lo)*j/(k+1)`
(Python `int(...)` applied to float arithmetic — not a rounding), where
`lo` is the element before the run and for a run starting at position 0 it
is the list's **last** element via Python negative indexing, not 0.
`[0, -1, -1, 9]` still becomes `[0, 3, 6, 9]` (even thirds are exact), but
`[0, -1, -1, 2]` becomes `[0, 0, 1, 2]` and `[-1, 3, 10]` becomes
`[6, 3, 10]`. -/
theorem C6_interpolation_amended (lo hi : ℤ) (num c : ℕ) (t : List ℤ) (i j : ℕ)
    (h1 : i ≤ j) (h2 : j < i + c) (h3 : j < t.length) :
    (applyFills lo hi num i t c).get? j = some (fillVal lo hi num (j - i + 1)) ∧
    fillVal lo hi num (j - i + 1) =
      Int.tdiv (lo * ((num : ℤ) + 1) + (hi - lo) * ((j - i + 1 : ℕ) : ℤ)) ((num : ℤ) + 1) ∧
    fillInvalid [0, -1, -1, 9] = some [0, 3, 6, 9] ∧
    fillInvalid [0, -1, -1, 2] = some [0, 0, 1, 2] ∧
    fillInvalid [-1, 3, 10] = some [6, 3, 10] :=
  ⟨applyFills_get? lo hi num i t c j h1 h2 h3, rfl, by decide, by decide, by decide⟩

/-- Witness for C6: the amended theorem applied to the run of `[0,-1,-1,9]`
(`lo = 0`, `hi = 9`, run length 2 starting at position 1), second member. -/
theorem C6_interpolation_amended_witness :
    (applyFills 0 9 2 1 [0, -1, -1, 9] 2).get? 2 = some (fillVal 0 9 2 2) ∧
    fillInvalid [0, -1, -1, 9] = some [0, 3, 6, 9] := by
  have h := C6_interpolation_amended 0 9 2 2 [0, -1, -1, 9] 1 2
    (by decide) (by decide) (by decide)
  exact ⟨h.1, h.2.2.1⟩

/-! ### Stream mergers (src/main.py:200-211 and src/markdown.py:139-162) -/

/-- The separator chunk for marker number `n`
(src/main.py:208: `"\n" + "-" * 40 + f"\n({thumb_idx + 1})\n"`). -/
def markerChunk (n : ℕ) : String :=
  "\n" ++ String.mk (List.replicate 40 '-') ++ "\n(" ++ String.mk (natDigits n) ++ ")\n"

/-- One caption chunk (src/main.py:211: `f"{line}\n"`). -/
def capChunk (line : String) : String := line ++ "\n"

/-- The inner `while` of `output_markdown` (src/main.py:207-209): emit
markers for every pending thumbnail with timestamp `≤ t`; returns the
written chunks, the remaining thumbnails and the updated counter. -/
def emitMarkers (t : ℤ) : List ℤ → ℕ → List String × List ℤ × ℕ
  | [], idx => ([], [], idx)
  | th :: ths, idx =>
    if th ≤ t then
      let r := emitMarkers t ths (idx + 1)
      (markerChunk (idx + 1) :: r.1, r.2.1, r.2.2)
    else ([], th :: ths, idx)

/-- The caption loop of `output_markdown` (src/main.py:205-211). -/
def outputGo : List (ℤ × String) → List ℤ → ℕ → List String
  | [], _, _ => []
  | s :: rest, thumbs, idx =>
    let r := emitMarkers s.1 thumbs idx
    r.1 ++ capChunk s.2 :: outputGo rest r.2.1 r.2.2

/-- `output_markdown` (src/main.py:200-211) as the ordered list of chunks
written to the output file. -/
def output_markdown (subs : List (ℤ × String)) (thumbs : List ℤ) : List String :=
  outputGo subs thumbs 0

/-- A thumbnail row of src/markdown.py: timestamp, URL, local path. -/
abbrev MdThumb := ℤ × String × String

/-- The three lines appended for one thumbnail image reference
(src/markdown.py:145-147 and 159-161). -/
def thumbLines (p : String) : List String := ["", "![thumbnail](" ++ p ++ ")", ""]

/-- First inner `while` of the markdown.py merge (lines 143-148): emit
thumbnails strictly earlier than the current caption; returns the emitted
lines and the remaining thumbnails. -/
def mdFore (ts : ℤ) : List MdThumb → List String × List MdThumb
  | [] => ([], [])
  | th :: ths =>
    if th.1 < ts then
      let r := mdFore ts ths
      (thumbLines th.2.2 ++ r.1, r.2)
    else ([], th :: ths)

/-- `thumbs[thumb_idx][0] <= next_ts` where `next_ts` is the next caption's
timestamp, or `float("inf")` for the last caption (src/markdown.py:151). -/
def underNext (nxt : Option ℤ) (v : ℤ) : Bool :=
  match nxt with
  | none => true
  | some w => decide (v ≤ w)

/-- Second inner `while` (src/markdown.py:153-162): emit thumbnails
strictly after the current caption and at or before the next caption. -/
def mdAfter (ts : ℤ) (nxt : Option ℤ) : List MdThumb → List String × List MdThumb
  | [] => ([], [])
  | th :: ths =>
    if ts < th.1 ∧ underNext nxt th.1 = true then
      let r := mdAfter ts nxt ths
      (thumbLines th.2.2 ++ r.1, r.2)
    else ([], th :: ths)

/-- The merge loop of src/markdown.py:139-162, producing `out_lines`. -/
def mdMergeGo : List (ℤ × String) → List MdThumb → List String
  | [], _ => []
  | s :: rest, thumbs =>
    let f := mdFore s.1 thumbs
    let a := mdAfter s.1 (rest.head?.map (fun r => r.1)) f.2
    f.1 ++ s.2 :: (a.1 ++ mdMergeGo rest a.2)

/-- The caption/thumbnail merge of src/markdown.py `main`. -/
def mdMerge (subs : List (ℤ × String)) (thumbs : List MdThumb) : List String :=
  mdMergeGo subs thumbs

/-- Claim C10: with an empty caption list, both merge variants produce
empty output — no caption lines and no slide-change markers at all; every
thumbnail of a non-empty thumbnail list is silently dropped, since markers
are only emitted while iterating over captions. -/
theorem C10_empty_captions (thumbs : List ℤ) (mthumbs : List MdThumb)
    (h1 : thumbs ≠ []) (h2 : mthumbs ≠ []) :
    output_markdown [] thumbs = [] ∧ mdMerge [] mthumbs = [] :=
  ⟨rfl, rfl⟩

/-- Witness for C10 at one-element thumbnail lists. -/
theorem C10_empty_captions_witness :
    output_markdown [] [5] = [] ∧ mdMerge [] [(5, "u", "p")] = [] :=
  C10_empty_captions [5] [(5, "u", "p")] (by simp) (by simp)

theorem outputGo_no_thumbs :
    ∀ (subs : List (ℤ × String)) (idx : ℕ),
      outputGo subs [] idx = subs.map (fun s => capChunk s.2) := by
  intro subs
  induction subs with
  | nil => intro idx; rfl
  | cons s rest ih =>
    intro idx
    simp only [outputGo, emitMarkers, List.map_cons, List.nil_append]
    rw [ih]

theorem outputGo_all_lt (T : ℤ) :
    ∀ (subs : List (ℤ × String)) (idx : ℕ), (∀ s ∈ subs, s.1 < T) →
      outputGo subs [T] idx = subs.map (fun s => capChunk s.2) := by
  intro subs
  induction subs with
  | nil => intro idx _; rfl
  | cons s rest ih =>
    intro idx h
    have hs : s.1 < T := h s (by simp)
    have hT : ¬ (T ≤ s.1) := by omega
    simp only [outputGo, emitMarkers, if_neg hT, List.map_cons, List.nil_append]
    rw [ih idx (fun x hx => h x (by simp [hx]))]

theorem mdMergeGo_all_lt (T : ℤ) (u p : String) :
    ∀ subs : List (ℤ × String), subs ≠ [] → (∀ s ∈ subs, s.1 < T) →
      mdMergeGo subs [(T, u, p)] = subs.map (fun s => s.2) ++ thumbLines p := by
  intro subs
  induction subs with
  | nil => intro h _; exact absurd rfl h
  | cons s rest ih =>
    intro _ h
    have hs : s.1 < T := h s (by simp)
    have hf : mdFore s.1 [(T, u, p)] = ([], [(T, u, p)]) := by
      simp only [mdFore]
      rw [if_neg (by simp; omega)]
    cases rest with
    | nil =>
      have ha : mdAfter s.1 none [(T, u, p)] = (thumbLines p, []) := by
        simp only [mdAfter]
        rw [if_pos (by exact ⟨by omega, rfl⟩)]
        rfl
      simp only [mdMergeGo, List.head?_nil, Option.map_none', hf, ha]
      simp
    | cons r rest2 =>
      have hr : r.1 < T := h r (by simp)
      have ha : mdAfter s.1 (some r.1) [(T, u, p)] = ([], [(T, u, p)]) := by
        simp only [mdAfter]
        rw [if_neg ?hneg]
        case hneg =>
          rintro ⟨_, hun⟩
          simp only [underNext, decide_eq_true_eq] at hun
          omega
      simp only [mdMergeGo, List.head?_cons, Option.map_some', hf]
      rw [ha]
      simp only [List.nil_append, List.map_cons, List.cons_append]
      congr 1
      exact ih (by simp) (fun x hx => h x (by simp [hx]))

/-- Counterexample for C4: in `output_markdown` a thumbnail at 5 with the
single caption at 0 produces no marker at all — the trailing marker is
silently dropped rather than appended after the last caption. -/
theorem C4_trailing_counterexample :
    output_markdown [(0, "a")] [5] = [capChunk "a"] ∧
    output_markdown [(0, "a")] [5] ≠ [capChunk "a", markerChunk 1] := by
  constructor
  · rfl
  · intro h
    exact absurd (congrArg List.length h) (by simp [output_markdown, outputGo, emitMarkers])

/-- Claim C4 (amended): a thumbnail whose timestamp is greater than every
caption's timestamp produces **no** marker in the numbered variant —
`output_markdown` emits markers only while scanning captions and never
flushes the remainder — while the image-reference variant
(src/markdown.py) does append its lines after the last caption. -/
theorem C4_trailing_amended (subs : List (ℤ × String)) (T : ℤ) (u p : String)
    (hne : subs ≠ []) (hlt : ∀ s ∈ subs, s.1 < T) :
    output_markdown subs [T] = subs.map (fun s => capChunk s.2) ∧
    mdMerge subs [(T, u, p)] = subs.map (fun s => s.2) ++ thumbLines p :=
  ⟨outputGo_all_lt T subs 0 hlt, mdMergeGo_all_lt T u p subs hne hlt⟩

/-- Witness for C4 at a single caption at 0 and a thumbnail at 5. -/
theorem C4_trailing_amended_witness :
    output_markdown [((0 : ℤ), "a")] [5] = [((0 : ℤ), "a")].map (fun s => capChunk s.2) ∧
    mdMerge [((0 : ℤ), "a")] [(5, "u", "p")] =
      [((0 : ℤ), "a")].map (fun s => s.2) ++ thumbLines "p" :=
  C4_trailing_amended [((0 : ℤ), "a")] 5 "u" "p" (by simp)
    (by intro s hs; simp only [List.mem_singleton] at hs; subst hs; decide)

/-- Counterexample for C5: captions at `[0, 10, 20]` with a thumbnail at
exactly 10: the marker is emitted *before* the caption at 10 (the `≤`
boundary), not before the first caption strictly after 10. -/
theorem C5_tie_counterexample :
    output_markdown [(0, "a"), (10, "b"), (20, "c")] [10] =
      [capChunk "a", markerChunk 1, capChunk "b", capChunk "c"] ∧
    output_markdown [(0, "a"), (10, "b"), (20, "c")] [10] ≠
      [capChunk "a", capChunk "b", markerChunk 1, capChunk "c"] := by
  constructor
  · rfl
  · intro h
    have h2 := congrArg (fun l => List.get? l 1) h
    simp only [output_markdown, outputGo, emitMarkers] at h2
    norm_num at h2
    exact absurd (congrArg String.length h2) (by decide)

/-- Claim C5 (amended): the marker for a single thumbnail at `T` is emitted
immediately before the first caption whose timestamp is `≥ T` (the
documented boundary: thumbnail timestamp ≤ caption timestamp ⇒ marker
before that caption; at a tie the marker precedes the tied caption rather
than the first strictly later one); in particular, with captions at
`[0, 10, 20]` and a thumbnail at 15 the marker `(1)` appears between the
captions at 10 and 20. -/
theorem C5_marker_placement (subs : List (ℤ × String)) (T : ℤ) (j : ℕ)
    (hj : subs.findIdx (fun s => decide (T ≤ s.1)) = j) (hlt : j < subs.length) :
    output_markdown subs [T] =
      (subs.take j).map (fun s => capChunk s.2) ++
        markerChunk 1 :: (subs.drop j).map (fun s => capChunk s.2) := by
  induction subs generalizing j with
  | nil => simp at hlt
  | cons s rest ih =>
    rw [List.findIdx_cons] at hj
    by_cases hT : T ≤ s.1
    · rw [show (decide (T ≤ s.1)) = true by simpa using hT] at hj
      simp only [cond_true] at hj
      subst hj
      have he : emitMarkers s.1 [T] 0 = ([markerChunk 1], [], 1) := by
        simp [emitMarkers, if_pos hT]
      simp only [output_markdown, outputGo, he]
      rw [outputGo_no_thumbs]
      simp
    · rw [show (decide (T ≤ s.1)) = false by simpa using hT] at hj
      simp only [cond_false] at hj
      cases j with
      | zero => omega
      | succ j2 =>
        have hj2 : rest.findIdx (fun s => decide (T ≤ s.1)) = j2 := by omega
        have hlt2 : j2 < rest.length := by
          simp only [List.length_cons] at hlt
          omega
        have he : emitMarkers s.1 [T] 0 = ([], [T], 0) := by
          simp [emitMarkers, if_neg hT]
        have ihh := ih j2 hj2 hlt2
        unfold output_markdown at ihh
        simp only [output_markdown, outputGo, he, List.take_succ_cons,
          List.drop_succ_cons, List.map_cons, List.nil_append, List.cons_append]
        rw [ihh]

/-- Witness for C5: the placement theorem at captions `[0, 10, 20]` and a
thumbnail at 15 (first caption with timestamp `≥ 15` is the one at 20, at
index 2): the marker lands between the captions at 10 and 20. -/
theorem C5_marker_placement_witness :
    output_markdown [((0 : ℤ), "a"), (10, "b"), (20, "c")] [15] =
      ([((0 : ℤ), "a"), (10, "b"), (20, "c")].take 2).map (fun s => capChunk s.2) ++
        markerChunk 1 ::
          ([((0 : ℤ), "a"), (10, "b"), (20, "c")].drop 2).map (fun s => capChunk s.2) :=
  C5_marker_placement [((0 : ℤ), "a"), (10, "b"), (20, "c")] 15 2 (by decide) (by decide)

/-! ### markdown.py thumbnail collection (src/markdown.py:52-57 and 90-114) -/

/-- Literal (case-sensitive) prefix stripping. -/
def stripLit : List Char → List Char → Option (List Char)
  | [], l => some l
  | _ :: _, [] => none
  | p :: ps, c :: cs => if p = c then stripLit ps cs else none

/-- The lazy tail `(.*?)["\']?\)` of `_BG_RE` (src/markdown.py:52): capture
characters until the earliest position where an optional quote followed by
a closing parenthesis matches; `.` does not cross a newline; `none` when no
closing parenthesis is reachable. -/
def bgScan : List Char → Option (List Char)
  | [] => none
  | c :: rest =>
    if c = ')' then some []
    else if (c = '"' ∨ c = '\'') ∧ rest.head? = some ')' then some []
    else if c = '\n' then none
    else (bgScan rest).map (fun cs => c :: cs)

/-- Attempt `_BG_RE` at one position: the literal `url(`, a greedy optional
opening quote (retried without it on failure), then the lazy capture. -/
def matchBgAt (s : List Char) : Option (List Char) :=
  match stripLit (("url(").toList) s with
  | none => none
  | some r =>
    match r with
    | c :: rest =>
      if c = '"' ∨ c = '\'' then
        match bgScan rest with
        | some cap => some cap
        | none => bgScan (c :: rest)
      else bgScan (c :: rest)
    | [] => none

/-- `bg_url` (src/markdown.py:52-57): `re.search` tries every start
position left to right and returns the first match's capture group. -/
def bg_url : List Char → Option (List Char)
  | [] => none
  | c :: rest =>
    match matchBgAt (c :: rest) with
    | some cap => some cap
    | none => bg_url rest

/-- Python `f"{n:03}"`. -/
def pad3 (l : List Char) : List Char := List.replicate (3 - l.length) '0' ++ l

/-- `ASSETS_DIR / f"thumb_{k:03}.jpg"` rendered as a posix path
(src/markdown.py:112). -/
def thumbPath (k : ℕ) : String :=
  "assets/thumb_" ++ String.mk (pad3 (natDigits k)) ++ ".jpg"

/-- The thumbnail-collection loop of src/markdown.py:90-114 on the rows'
(`aria-label`, `style`) attribute pairs: a label without the thumbnail
phrase is skipped (`continue`), as are rows with an empty style or no
extractable non-empty URL; a protocol-relative URL gets `https:` prefixed;
the path counter advances only on appended rows. -/
def mdCollectGo : ℕ → List (List Char × List Char) → List MdThumb
  | _, [] => []
  | k, (label, style) :: rest =>
    match ts_from_thumb label with
    | none => mdCollectGo k rest
    | some ts =>
      if style = [] then mdCollectGo k rest
      else
        match bg_url style with
        | none => mdCollectGo k rest
        | some u =>
          if u = [] then mdCollectGo k rest
          else
            ((ts : ℤ),
              String.mk (if u.take 2 = ['/', '/'] then ("https:").toList ++ u else u),
              thumbPath k) :: mdCollectGo (k + 1) rest

def mdCollect (rows : List (List Char × List Char)) : List MdThumb :=
  mdCollectGo 1 rows

theorem ciStripLit_none_iff :
    ∀ (p l : List Char), ciStripLit p l = none ↔
      ¬ (p.map toLowerCh).isPrefixOf (l.map toLowerCh) = true := by
  intro p
  induction p with
  | nil => intro l; simp [ciStripLit, List.isPrefixOf]
  | cons a ps ih =>
    intro l
    cases l with
    | nil => simp [ciStripLit, List.isPrefixOf]
    | cons c cs =>
      simp only [List.map_cons, List.isPrefixOf, ciStripLit]
      by_cases hac : toLowerCh a = toLowerCh c
      · rw [if_pos hac]
        simp [hac, ih cs]
      · rw [if_neg hac]
        simp [hac]

/-- Counterexample for C9: in the markdown.py variant, a thumbnail row
whose label lacks the leading phrase is *discarded* (`continue`), not
retained with a default timestamp of 0: nothing is collected from it. -/
theorem C9_md_caller_counterexample :
    mdCollect [(("hello").toList, ("background-image: url(a.jpg)").toList)] = [] ∧
    (mdCollect [(("hello").toList, ("background-image: url(a.jpg)").toList)]).length ≠ 1 := by
  constructor
  · rfl
  · decide

/-- Claim C9 (amended): `ts_from_thumb` returns `none` exactly when the
case-insensitive leading phrase `"Thumbnail at"` is absent (the phrase with
all time clauses absent still yields 0 seconds, not a failure); the
screenshot variant's caller (src/main.py `extract_thumb`) retains such a
record with default timestamp 0, but the download variant's caller
(src/markdown.py `main`) discards it. -/
theorem C9_label_failure_handling (l : List Char) :
    (ts_from_thumb l = none ↔
      ¬ ((("thumbnail at").toList).isPrefixOf (l.map toLowerCh) = true)) ∧
    ts_from_thumb (("Thumbnail at").toList) = some 0 ∧
    extract_thumb [("hello").toList] = some [0] ∧
    mdCollect [(("hello").toList, ("background-image: url(a.jpg)").toList)] = [] := by
  refine ⟨?_, by decide, by decide, by rfl⟩
  have hphrase : (("Thumbnail at").toList).map toLowerCh = ("thumbnail at").toList := by
    decide
  rw [← hphrase]
  unfold ts_from_thumb
  cases h : ciStripLit (("Thumbnail at").toList) l with
  | none =>
    simp only []
    constructor
    · intro _
      exact (ciStripLit_none_iff _ _).mp h
    · intro _
      trivial
  | some r =>
    constructor
    · intro hcontra
      simp at hcontra
    · intro hpre
      exact absurd ((ciStripLit_none_iff (("Thumbnail at").toList) l).mpr hpre)
        (by rw [h]; simp)

/-- Witness for C9: the amended characterisation applied at the
non-thumbnail label `"hello"`. -/
theorem C9_label_failure_handling_witness :
    ts_from_thumb (("hello").toList) = none ↔
      ¬ ((("thumbnail at").toList).isPrefixOf ((("hello").toList).map toLowerCh) = true) :=
  (C9_label_failure_handling (("hello").toList)).1
